import Mathlib

/-!
Verification development for the GraphQL HTTP client core (`client/client.go`):
the variable sanitizer `removeNils`, the request builder `newRequest`, and the
response interpretation pipeline `unmarshal` / `parseResponse`.
-/

set_option autoImplicit false

namespace GqlClient

/--
A Go `interface{}` value as it occurs in a `variables` mapping
(`map[string]interface{}`).  `null` is an untyped nil; `nilMap` is a nil value
of type `map[string]interface{}` (a typed nil, which succeeds the
`value.(map[string]interface{})` type assertion); `obj` is a non-nil nested
mapping, modelled as an association list; `arr` is a `[]interface{}` slice.
Scalars are collapsed to `bool`, `num`, `str`.
-/
inductive GoValue where
  | null
  | bool (b : Bool)
  | num (n : Int)
  | str (s : String)
  | arr (elems : List GoValue)
  | obj (entries : List (String × GoValue))
  | nilMap
deriving Repr

/--
Function `removeNils` from `client/client.go` (lines 42-56): builds a fresh mapping,
copying every entry whose value is non-nil; an entry whose value is itself a
`map[string]interface{}` (including a typed-nil map, which passes the type
assertion and whose zero-iteration range yields the freshly initialised empty
map) is replaced by its recursively sanitised form; an entry whose value is
untyped nil is dropped; any other value (slices included) is copied unchanged.
Go's map is modelled as an association list.
-/
def removeNils : List (String × GoValue) → List (String × GoValue)
  | [] => []
  | (key, value) :: rest =>
    match value with
    | GoValue.obj entries => (key, GoValue.obj (removeNils entries)) :: removeNils rest
    | GoValue.nilMap => (key, GoValue.obj []) :: removeNils rest
    | GoValue.null => removeNils rest
    | GoValue.bool b => (key, GoValue.bool b) :: removeNils rest
    | GoValue.num n => (key, GoValue.num n) :: removeNils rest
    | GoValue.str s => (key, GoValue.str s) :: removeNils rest
    | GoValue.arr elems => (key, GoValue.arr elems) :: removeNils rest

/-- Holds exactly on the untyped nil value. -/
def GoValue.isNull : GoValue → Bool
  | GoValue.null => true
  | _ => false

/-- The per-entry effect of `removeNils` on a single non-nil value. -/
def sanitizeValue : GoValue → GoValue
  | GoValue.obj entries => GoValue.obj (removeNils entries)
  | GoValue.nilMap => GoValue.obj []
  | v => v

mutual

/-- No null-valued key reachable from this value through nested mappings only
(the sanitizer does not descend into slices). -/
def GoValue.mapNoNull : GoValue → Bool
  | GoValue.obj entries => entriesNoNull entries
  | _ => true

/-- No entry of this mapping is null-valued, recursively through nested
mappings only. -/
def entriesNoNull : List (String × GoValue) → Bool
  | [] => true
  | (_, v) :: rest => !v.isNull && v.mapNoNull && entriesNoNull rest

end

mutual

/-- A null value occurs somewhere inside this value, at any nesting depth,
descending through both mappings and slices. -/
def GoValue.hasNullInside : GoValue → Bool
  | GoValue.obj entries => entriesHaveNull entries
  | GoValue.arr elems => elemsHaveNull elems
  | _ => false

/-- Some entry of this mapping holds a null, at any nesting depth. -/
def entriesHaveNull : List (String × GoValue) → Bool
  | [] => false
  | (_, v) :: rest => v.isNull || v.hasNullInside || entriesHaveNull rest

/-- Some element of this slice holds a null, at any nesting depth. -/
def elemsHaveNull : List GoValue → Bool
  | [] => false
  | v :: rest => v.isNull || v.hasNullInside || elemsHaveNull rest

end

/--
A JSON value on the wire, modelling the values Go's `encoding/json`
distinguishes when decoding a response body.  Numbers are collapsed to
integers (no claim involves fractional numbers).  `obj` keeps the fields in
textual order; `encoding/json` lets a later duplicate key overwrite an
earlier one, see `lookupLast`.
-/
inductive Json where
  | null
  | bool (b : Bool)
  | num (n : Int)
  | str (s : String)
  | arr (elems : List Json)
  | obj (fields : List (String × Json))
deriving Repr

/-- Field lookup in a decoded JSON object: with duplicate keys the last
occurrence wins, as in `encoding/json`. -/
def lookupLast (fields : List (String × Json)) (key : String) : Option Json :=
  fields.foldl (fun acc kv => if kv.1 = key then some kv.2 else acc) none

/--
A raw HTTP response body: the raw bytes (as a string) together with the result
of JSON syntax parsing — `none` when the bytes are not well-formed JSON (for
example a plain-text error page).  `encoding/json`'s syntactic parser itself
is not re-implemented; `parsed` records its outcome on `raw`.
-/
structure Body where
  raw : String
  parsed : Option Json

/--
The decoded `response` struct of `client/client.go` (lines 172-175):
`Data` and `Errors` are `json.RawMessage` fields.  A field is `none` when the
key is absent from the body (the `RawMessage` stays nil); it is `some v` when
the key is present with value `v` — including `some Json.null` for an explicit
`"errors":null`, since `encoding/json` calls `RawMessage.UnmarshalJSON` even
on a JSON null, storing the four bytes `null`.
-/
structure RespEnvelope where
  data : Option Json
  errors : Option Json

/--
Behaviour of `json.Unmarshal(data, &resp)` for the `response` struct: succeeds when the top
level is a JSON object (fields picked out by key, unknown keys ignored) or
JSON null (struct left at its zero value); any other top-level value is a
decode error.
-/
def decodeRespStruct : Json → Option RespEnvelope
  | Json.obj fields => some ⟨lookupLast fields "data", lookupLast fields "errors"⟩
  | Json.null => some ⟨none, none⟩
  | _ => none

/-- Decoding the body as a protocol envelope: JSON syntax parse followed by
`decodeRespStruct`. -/
def decodeEnvelope (body : Body) : Option RespEnvelope :=
  match body.parsed with
  | none => none
  | some v => decodeRespStruct v

/--
The condition `resp.Errors != nil && len(resp.Errors) > 0` of
`client/client.go` line 183.  A present `json.RawMessage` always holds the raw
bytes of one JSON value, which are never empty (`null` is four bytes, `[]` is
two), so the length guard is equivalent to presence of the key.
-/
def errorsPresent : Option Json → Bool
  | none => false
  | some _ => true

/-- A source location inside a `gqlerror.Error` (vektah/gqlparser v2
`Location`): optional integer `line` and `column` fields. -/
structure ErrorLocation where
  line : Int
  column : Int
deriving Repr

/--
A structured protocol error, `gqlerror.Error` of vektah/gqlparser v2 as far
as JSON decoding sees it: `message string`, `path []interface{}`,
`locations []Location`, `extensions map[string]interface{}`.
-/
structure GqlError where
  message : String
  path : List Json
  locations : List ErrorLocation
  extensions : Option (List (String × Json))
deriving Repr

/-- Decode an optional string field: absent or null gives the zero value `""`;
any non-string, non-null value is a decode error. -/
def decodeStringField (fields : List (String × Json)) (key : String) : Option String :=
  match lookupLast fields key with
  | none => some ""
  | some Json.null => some ""
  | some (Json.str s) => some s
  | some _ => none

/-- Decode an optional integer field: absent or null gives 0; any non-number
value is a decode error. -/
def decodeIntField (fields : List (String × Json)) (key : String) : Option Int :=
  match lookupLast fields key with
  | none => some 0
  | some Json.null => some 0
  | some (Json.num n) => some n
  | some _ => none

/-- Decode the `path` field (`[]interface{}`): absent or null gives the empty
path; an array keeps its elements as raw values; anything else fails. -/
def decodePath : Option Json → Option (List Json)
  | none => some []
  | some Json.null => some []
  | some (Json.arr elems) => some elems
  | some _ => none

/-- Decode one element of the `locations` array: an object with optional
integer fields, or null (leaving the zero value); anything else fails. -/
def decodeLocation : Json → Option ErrorLocation
  | Json.obj fields => do
    let line ← decodeIntField fields "line"
    let column ← decodeIntField fields "column"
    some ⟨line, column⟩
  | Json.null => some ⟨0, 0⟩
  | _ => none

/-- Decode the elements of the `locations` array, failing on the first bad
element. -/
def decodeLocationElems : List Json → Option (List ErrorLocation)
  | [] => some []
  | x :: xs => do
    let loc ← decodeLocation x
    let rest ← decodeLocationElems xs
    some (loc :: rest)

/-- Decode the `locations` field: absent or null gives the empty list; an
array is decoded element-wise; anything else fails. -/
def decodeLocations : Option Json → Option (List ErrorLocation)
  | none => some []
  | some Json.null => some []
  | some (Json.arr elems) => decodeLocationElems elems
  | some _ => none

/-- Decode the `extensions` field (`map[string]interface{}`): absent or null
gives a nil map; an object keeps its fields; anything else fails. -/
def decodeExtensions : Option Json → Option (Option (List (String × Json)))
  | none => some none
  | some Json.null => some none
  | some (Json.obj fields) => some (some fields)
  | some _ => none

/-- Decode one protocol-error object into a `GqlError`; unknown fields are
ignored, each known field must decode. -/
def decodeGqlError (fields : List (String × Json)) : Option GqlError := do
  let message ← decodeStringField fields "message"
  let path ← decodePath (lookupLast fields "path")
  let locations ← decodeLocations (lookupLast fields "locations")
  let extensions ← decodeExtensions (lookupLast fields "extensions")
  some ⟨message, path, locations, extensions⟩

/-- Decode one element of the `errors` array: `gqlerror.List` is a slice of
pointers, so a null element decodes to a nil pointer (`none`). -/
def decodeGqlErrorElem : Json → Option (Option GqlError)
  | Json.null => some none
  | Json.obj fields => (decodeGqlError fields).map some
  | _ => none

/-- Decode the elements of the `errors` array, failing on the first bad
element. -/
def decodeGqlErrorElems : List Json → Option (List (Option GqlError))
  | [] => some []
  | x :: xs => do
    let e ← decodeGqlErrorElem x
    let rest ← decodeGqlErrorElems xs
    some (e :: rest)

/--
Behaviour of `json.Unmarshal(data, &GqlErrorList)` at `client/client.go` lines 185-188:
the whole body is decoded into a struct whose only JSON field is
`errors gqlerror.List`.  The result is the decoded list (`some`) or a decode
error (`none`); an absent or null `errors` field leaves the slice nil,
modelled as the empty list.
-/
def decodeGqlErrorList : Json → Option (List (Option GqlError))
  | Json.obj fields =>
    match lookupLast fields "errors" with
    | none => some []
    | some Json.null => some []
    | some (Json.arr elems) => decodeGqlErrorElems elems
    | some _ => none
  | Json.null => some []
  | _ => none

/--
Modelled from the spec: `graphqljson.UnmarshalData` (package `graphqljson` of
this repository, whose source is not among the provided files) decodes the
envelope's `data` field into the caller-supplied target shape, failing on a
shape mismatch.  The caller-supplied target shape is modelled as a decoding
function `dec`; a nil `RawMessage` (absent `data` key) is decoded like an
explicit null.
-/
def UnmarshalData {α : Type} (dec : Json → Option α) (rawData : Option Json) : Option α :=
  dec (rawData.getD Json.null)

/-- Which decoding stage of `unmarshal` failed (the three `xerrors.Errorf`
returns of `client/client.go` lines 180, 187 and 194). -/
inductive DecodeStage where
  | envelope
  | gqlErrorShape
  | dataShape
deriving Repr, DecidableEq

/-- The error value returned by Go's `unmarshal`: nil (`ok`), a `*GqlErrorList`
(`gqlErrorList`), or a wrapped hard decode error carrying the body text. -/
inductive UnmarshalOutcome where
  | ok
  | gqlErrorList (errs : List (Option GqlError))
  | decodeFailure (stage : DecodeStage) (body : String)

/--
Function `unmarshal` from `client/client.go` (lines 177-198), with the target threaded
explicitly: `t0` is the caller's target before the call and the second
component of the result is the target after it (only the success path
populates it).  The body is first decoded as the `response` envelope; a
present, non-empty `errors` raw field diverts to `GqlErrorList` decoding of
the whole body; otherwise `data` is decoded into the target.
-/
def unmarshal {α : Type} (dec : Json → Option α) (t0 : α) (body : Body) :
    UnmarshalOutcome × α :=
  match body.parsed with
  | none => (UnmarshalOutcome.decodeFailure DecodeStage.envelope body.raw, t0)
  | some v =>
    match decodeRespStruct v with
    | none => (UnmarshalOutcome.decodeFailure DecodeStage.envelope body.raw, t0)
    | some resp =>
      if errorsPresent resp.errors then
        match decodeGqlErrorList v with
        | none => (UnmarshalOutcome.decodeFailure DecodeStage.gqlErrorShape body.raw, t0)
        | some errs => (UnmarshalOutcome.gqlErrorList errs, t0)
      else
        match UnmarshalData dec resp.data with
        | none => (UnmarshalOutcome.decodeFailure DecodeStage.dataShape body.raw, t0)
        | some t => (UnmarshalOutcome.ok, t)

/-- Struct `HTTPError` from `client/client.go` (lines 94-97). -/
structure HTTPError where
  code : Int
  message : String
deriving Repr

/-- Struct `ErrorResponse` from `client/client.go` (lines 100-105): an optional
network error and an optional protocol error list.  `gqlErrors = some l`
models a non-nil `*gqlerror.List` pointer, even when the list `l` it points
to is empty. -/
structure ErrorResponse where
  networkError : Option HTTPError
  gqlErrors : Option (List (Option GqlError))
deriving Repr

/-- Method `ErrorResponse.HasErrors` (lines 108-110): at least one of the two
components is set. -/
def ErrorResponse.HasErrors (er : ErrorResponse) : Bool :=
  er.networkError.isSome || er.gqlErrors.isSome

/-- Condition `httpCode < 200 || 299 < httpCode` (line 147). -/
def isKOCode (httpCode : Int) : Bool :=
  httpCode < 200 || 299 < httpCode

/-- The `NetworkError` recorded by `parseResponse` lines 148-153: set exactly
when the status code is out of the success range, with a message embedding
the raw body. -/
def networkErrorFor (httpCode : Int) (raw : String) : Option HTTPError :=
  if isKOCode httpCode then
    some ⟨httpCode, "Response body " ++ raw⟩
  else
    none

/-- The value `parseResponse` (and hence `Post` on transport success) returns
to the caller: nil error, an `*ErrorResponse`, or a hard decode error passed
through directly. -/
inductive ParseOutcome where
  | ok
  | errResp (er : ErrorResponse)
  | hardError (stage : DecodeStage) (body : String)

/--
Function `parseResponse` from `client/client.go` (lines 145-169), target threaded
explicitly as in `unmarshal`.  A `*GqlErrorList` error is attached to the
`ErrorResponse`; any other `unmarshal` error is returned directly unless the
status code was already out of range, in which case it is swallowed; finally
the `ErrorResponse` is returned when it has any error, else nil.
`Post` (lines 123-143) returns this value whenever request construction and
transport dispatch succeed.
-/
def parseResponse {α : Type} (dec : Json → Option α) (t0 : α) (body : Body)
    (httpCode : Int) : ParseOutcome × α :=
  let networkError := networkErrorFor httpCode body.raw
  match unmarshal dec t0 body with
  | (UnmarshalOutcome.gqlErrorList errs, t) =>
    let errResponse : ErrorResponse := ⟨networkError, some errs⟩
    if errResponse.HasErrors then (ParseOutcome.errResp errResponse, t)
    else (ParseOutcome.ok, t)
  | (UnmarshalOutcome.decodeFailure stage raw, t) =>
    if !isKOCode httpCode then (ParseOutcome.hardError stage raw, t)
    else
      let errResponse : ErrorResponse := ⟨networkError, none⟩
      if errResponse.HasErrors then (ParseOutcome.errResp errResponse, t)
      else (ParseOutcome.ok, t)
  | (UnmarshalOutcome.ok, t) =>
    let errResponse : ErrorResponse := ⟨networkError, none⟩
    if errResponse.HasErrors then (ParseOutcome.errResp errResponse, t)
    else (ParseOutcome.ok, t)

/-- The `Request` struct serialized as the POST body (lines 27-31, 59-63):
query text, sanitized variables, empty operation name. -/
structure GqlRequest where
  Query : String
  Variables : List (String × GoValue)
  OperationName : String

/-- An outgoing transport request, abstracting `http.Request`: method, URL,
the marshalled protocol envelope (kept structurally), and mutable headers. -/
structure TransportRequest where
  method : String
  url : String
  payload : GqlRequest
  headers : List (String × String)

/-- Type `HTTPRequestOption` (line 17): a caller-supplied request mutator, modelled
in state-passing style. -/
abbrev HTTPRequestOption := TransportRequest → TransportRequest

/-- The POST request `newRequest` builds before any mutator runs
(lines 59-72): the configured base URL with the marshalled envelope
`{query, removeNils vars, ""}`.  `json.Marshal` and
`http.NewRequestWithContext` failures (lines 64-72) depend on resources
outside this model and are elided: on their success paths the request below
is what the mutators receive. -/
def baseTransportRequest (baseURL query : String)
    (vars : List (String × GoValue)) : TransportRequest :=
  ⟨"POST", baseURL, ⟨query, removeNils vars, ""⟩, []⟩

/--
Function `newRequest` from `client/client.go` (lines 58-82): build the base request,
then apply the construction-time mutators (`c.HTTPRequestOptions`) in a range
loop, then the per-call mutators (`httpRequestOptions`) in a range loop.
-/
def newRequest (baseURL : String) (clientOptions : List HTTPRequestOption)
    (query : String) (vars : List (String × GoValue))
    (httpRequestOptions : List HTTPRequestOption) : TransportRequest :=
  let req := baseTransportRequest baseURL query vars
  let req := clientOptions.foldl (fun r o => o r) req
  let req := httpRequestOptions.foldl (fun r o => o r) req
  req

/--
Modelled from the spec: the caller-supplied target shape of the worked
examples, a record with a single numeric field `x` (`{x:1}`).  Decoding
demands a JSON object whose `x` field is a number, mirroring "a body whose
`data` field does not match the target shape's structure" failing.
-/
structure TargetX where
  x : Int
deriving Repr

/-- Modelled from the spec: the decoder for the `TargetX` target shape. -/
def decodeTargetX : Json → Option TargetX
  | Json.obj fields =>
    match lookupLast fields "x" with
    | some (Json.num n) => some ⟨n⟩
    | _ => none
  | _ => none

end GqlClient

namespace GqlClient

/-- Helper: the sanitizer's output has no null-valued entry at any depth
reachable through nested mappings. -/
theorem entriesNoNull_removeNils (m : List (String × GoValue)) :
    entriesNoNull (removeNils m) = true := by
  induction m using removeNils.induct <;>
    simp [removeNils, entriesNoNull, GoValue.mapNoNull, GoValue.isNull, *]

/-- Helper: every non-null entry of the input reappears in the sanitizer's
output, with its value sanitized. -/
theorem mem_removeNils_of_mem (m : List (String × GoValue)) :
    ∀ (k : String) (v : GoValue), (k, v) ∈ m → v.isNull = false →
      (k, sanitizeValue v) ∈ removeNils m := by
  induction m using removeNils.induct with
  | case1 => intro k v h _; cases h
  | case2 key entries rest ih1 ih2 =>
    intro k v h hv
    rcases List.mem_cons.mp h with heq | hmem
    · cases heq
      simp [removeNils, sanitizeValue]
    · simp [removeNils]
      exact Or.inr (ih2 k v hmem hv)
  | case3 key rest ih =>
    intro k v h hv
    rcases List.mem_cons.mp h with heq | hmem
    · cases heq
      simp [removeNils, sanitizeValue]
    · simp [removeNils]
      exact Or.inr (ih k v hmem hv)
  | case4 key rest ih =>
    intro k v h hv
    rcases List.mem_cons.mp h with heq | hmem
    · cases heq
      simp [GoValue.isNull] at hv
    · simp [removeNils]
      exact ih k v hmem hv
  | case5 key rest b ih =>
    intro k v h hv
    rcases List.mem_cons.mp h with heq | hmem
    · cases heq
      simp [removeNils, sanitizeValue]
    · simp [removeNils]
      exact Or.inr (ih k v hmem hv)
  | case6 key rest n ih =>
    intro k v h hv
    rcases List.mem_cons.mp h with heq | hmem
    · cases heq
      simp [removeNils, sanitizeValue]
    · simp [removeNils]
      exact Or.inr (ih k v hmem hv)
  | case7 key rest s ih =>
    intro k v h hv
    rcases List.mem_cons.mp h with heq | hmem
    · cases heq
      simp [removeNils, sanitizeValue]
    · simp [removeNils]
      exact Or.inr (ih k v hmem hv)
  | case8 key rest elems ih =>
    intro k v h hv
    rcases List.mem_cons.mp h with heq | hmem
    · cases heq
      simp [removeNils, sanitizeValue]
    · simp [removeNils]
      exact Or.inr (ih k v hmem hv)

/-- Helper: every entry of the sanitizer's output comes from a non-null entry
of the input, as its sanitized form. -/
theorem mem_removeNils_inv (m : List (String × GoValue)) :
    ∀ (k : String) (w : GoValue), (k, w) ∈ removeNils m →
      ∃ v, (k, v) ∈ m ∧ v.isNull = false ∧ w = sanitizeValue v := by
  induction m using removeNils.induct with
  | case1 => intro k w h; simp [removeNils] at h
  | case2 key entries rest ih1 ih2 =>
    intro k w h
    simp only [removeNils, List.mem_cons] at h
    rcases h with heq | hmem
    · cases heq
      exact ⟨GoValue.obj rest, List.mem_cons_self _ _, rfl, rfl⟩
    · rcases ih2 k w hmem with ⟨v, hv, hn, hw⟩
      exact ⟨v, List.mem_cons_of_mem _ hv, hn, hw⟩
  | case3 key rest ih =>
    intro k w h
    simp only [removeNils, List.mem_cons] at h
    rcases h with heq | hmem
    · cases heq
      exact ⟨GoValue.nilMap, List.mem_cons_self _ _, rfl, rfl⟩
    · rcases ih k w hmem with ⟨v, hv, hn, hw⟩
      exact ⟨v, List.mem_cons_of_mem _ hv, hn, hw⟩
  | case4 key rest ih =>
    intro k w h
    simp only [removeNils] at h
    rcases ih k w h with ⟨v, hv, hn, hw⟩
    exact ⟨v, List.mem_cons_of_mem _ hv, hn, hw⟩
  | case5 key rest b ih =>
    intro k w h
    simp only [removeNils, List.mem_cons] at h
    rcases h with heq | hmem
    · cases heq
      exact ⟨GoValue.bool b, List.mem_cons_self _ _, rfl, rfl⟩
    · rcases ih k w hmem with ⟨v, hv, hn, hw⟩
      exact ⟨v, List.mem_cons_of_mem _ hv, hn, hw⟩
  | case6 key rest n ih =>
    intro k w h
    simp only [removeNils, List.mem_cons] at h
    rcases h with heq | hmem
    · cases heq
      exact ⟨GoValue.num n, List.mem_cons_self _ _, rfl, rfl⟩
    · rcases ih k w hmem with ⟨v, hv, hn, hw⟩
      exact ⟨v, List.mem_cons_of_mem _ hv, hn, hw⟩
  | case7 key rest s ih =>
    intro k w h
    simp only [removeNils, List.mem_cons] at h
    rcases h with heq | hmem
    · cases heq
      exact ⟨GoValue.str s, List.mem_cons_self _ _, rfl, rfl⟩
    · rcases ih k w hmem with ⟨v, hv, hn, hw⟩
      exact ⟨v, List.mem_cons_of_mem _ hv, hn, hw⟩
  | case8 key rest elems ih =>
    intro k w h
    simp only [removeNils, List.mem_cons] at h
    rcases h with heq | hmem
    · cases heq
      exact ⟨GoValue.arr elems, List.mem_cons_self _ _, rfl, rfl⟩
    · rcases ih k w hmem with ⟨v, hv, hn, hw⟩
      exact ⟨v, List.mem_cons_of_mem _ hv, hn, hw⟩

/--
Claim C1 (code-bug evidence).  The claim states that a response with status 200
whose body is the envelope with data present and with an explicit
`"errors":null` decodes `data` into the target and returns success with no
`ErrorResponse`.  The code does the opposite: a present `errors` key — even
with value null — makes the raw `errors` field non-nil and non-empty (a
`json.RawMessage` stores the literal bytes of the null), so `unmarshal`
diverts to `GqlErrorList` decoding, which succeeds with a nil list, and
`parseResponse` returns an `ErrorResponse` whose `GqlErrors` is set (to an
empty list) while the target stays unpopulated.  The second conjunct shows
that the `data` payload would have decoded into the target as the claim
expects.
-/
theorem c1_errors_null_yields_error_response :
    parseResponse decodeTargetX (⟨0⟩ : TargetX)
      ⟨"\x7b\"data\":\x7b\"x\":1\x7d,\"errors\":null\x7d",
        some (Json.obj [("data", Json.obj [("x", Json.num 1)]), ("errors", Json.null)])⟩
      200
    = (ParseOutcome.errResp ⟨none, some []⟩, ⟨0⟩)
    ∧ decodeTargetX (Json.obj [("x", Json.num 1)]) = some ⟨1⟩ :=
  ⟨rfl, rfl⟩

/--
Claim C2 (counterexample).  The claim states a present, non-empty `errors`
field that fails to decode as a `GqlErrorList` yields a hard decode error
regardless of the HTTP status.  At status 500 with body having
`"errors":"boom"` the decode failure is swallowed (line 159 of
`client/client.go`): `parseResponse` returns an `ErrorResponse` with only the
`NetworkError` set, not a hard error.  The last two conjuncts show the
claim's premise holds at this input: `errors` is present and its decode
fails.
-/
theorem c2_counterexample_ko_status_swallows_decode_failure :
    parseResponse decodeTargetX (⟨0⟩ : TargetX)
      ⟨"\x7b\"errors\":\"boom\"\x7d", some (Json.obj [("errors", Json.str "boom")])⟩
      500
    = (ParseOutcome.errResp
        ⟨some ⟨500, "Response body \x7b\"errors\":\"boom\"\x7d"⟩, none⟩, ⟨0⟩)
    ∧ errorsPresent (lookupLast [("errors", Json.str "boom")] "errors") = true
    ∧ decodeGqlErrorList (Json.obj [("errors", Json.str "boom")]) = none :=
  ⟨rfl, rfl, rfl⟩

/--
Claim C2 (amended).  For every response whose envelope decodes with a present,
non-empty `errors` field that itself fails to decode into the structured
protocol-error-list shape, and whose HTTP status lies inside [200,299], the
call returns the hard decode error directly to the caller; for a status
outside that range the failure is instead suppressed in favour of the
`NetworkError`.
-/
theorem c2_gql_decode_failure_hard_error_in_range (α : Type)
    (dec : Json → Option α) (t0 : α) (raw : String) (v : Json)
    (env : RespEnvelope) (code : Int)
    (hcode : isKOCode code = false)
    (henv : decodeRespStruct v = some env)
    (herr : errorsPresent env.errors = true)
    (hfail : decodeGqlErrorList v = none) :
    parseResponse dec t0 ⟨raw, some v⟩ code
    = (ParseOutcome.hardError DecodeStage.gqlErrorShape raw, t0) := by
  simp [parseResponse, unmarshal, henv, herr, hfail, hcode]

/--
Witness for the amended C2: status 200 with body having `"errors":"boom"`
returns the hard decode error.
-/
theorem c2_witness :
    parseResponse decodeTargetX (⟨0⟩ : TargetX)
      ⟨"\x7b\"errors\":\"boom\"\x7d", some (Json.obj [("errors", Json.str "boom")])⟩
      200
    = (ParseOutcome.hardError DecodeStage.gqlErrorShape "\x7b\"errors\":\"boom\"\x7d", ⟨0⟩) :=
  c2_gql_decode_failure_hard_error_in_range TargetX decodeTargetX ⟨0⟩
    "\x7b\"errors\":\"boom\"\x7d" (Json.obj [("errors", Json.str "boom")])
    ⟨none, some (Json.str "boom")⟩ 200 (by decide) rfl rfl rfl

/--
Claim C3 (counterexample).  The claim states the sanitizer's output contains no
null value at any nesting depth.  The sanitizer recurses only into nested
mappings, not into slices: for the input mapping whose key `a` holds a slice
containing a mapping with a null-valued key `b`, the output is unchanged and
still contains that null-valued key.
-/
theorem c3_counterexample_null_inside_array_survives :
    removeNils [("a", GoValue.arr [GoValue.obj [("b", GoValue.null)]])]
    = [("a", GoValue.arr [GoValue.obj [("b", GoValue.null)]])]
    ∧ entriesHaveNull
        (removeNils [("a", GoValue.arr [GoValue.obj [("b", GoValue.null)]])]) = true := by
  constructor
  · simp [removeNils]
  · simp [removeNils, entriesHaveNull, GoValue.hasNullInside, elemsHaveNull, GoValue.isNull]

/--
Claim C3 (amended).  For any nested variables mapping, the sanitizer's output
contains no null-valued key at any depth reachable through nested mappings
alone (it does not descend into slices or other non-mapping values, which
pass through unchanged, nulls inside them included): every null-valued key
at a mapping level is absent from the output, and every non-null entry is
retained with nested mappings sanitized recursively by the same rule and all
other values unaltered; nothing else is added.
-/
theorem c3_sanitizer_mapping_depth_characterization (m : List (String × GoValue)) :
    entriesNoNull (removeNils m) = true
    ∧ (∀ (k : String) (v : GoValue), (k, v) ∈ m → v.isNull = false →
        (k, sanitizeValue v) ∈ removeNils m)
    ∧ (∀ (k : String) (w : GoValue), (k, w) ∈ removeNils m →
        ∃ v, (k, v) ∈ m ∧ v.isNull = false ∧ w = sanitizeValue v) :=
  ⟨entriesNoNull_removeNils m, mem_removeNils_of_mem m, mem_removeNils_inv m⟩

/--
Witness for the amended C3 at a concrete mapping with one null entry and one
nested mapping holding a null entry.
-/
theorem c3_witness :
    entriesNoNull
      (removeNils [("a", GoValue.null), ("b", GoValue.obj [("c", GoValue.null)])]) = true
    ∧ ("b", GoValue.obj [])
      ∈ removeNils [("a", GoValue.null), ("b", GoValue.obj [("c", GoValue.null)])] := by
  have h := c3_sanitizer_mapping_depth_characterization
    [("a", GoValue.null), ("b", GoValue.obj [("c", GoValue.null)])]
  refine ⟨h.1, ?_⟩
  have hm := h.2.1 "b" (GoValue.obj [("c", GoValue.null)]) (by simp) rfl
  rw [show GoValue.obj [] = sanitizeValue (GoValue.obj [("c", GoValue.null)]) by
    simp [sanitizeValue, removeNils]]
  exact hm

/--
Claim C4 (confirmed).  `NetworkError` and the protocol error list may both be
set in one `ErrorResponse`: for status 500 with body
`\x7b"errors":[\x7b"message":"server exploded"\x7d]\x7d`, `parseResponse`
returns an `ErrorResponse` carrying both the `NetworkError` with code 500 and
a one-entry protocol error list, so the caller can inspect both.
-/
theorem c4_network_and_gql_errors_coexist :
    parseResponse decodeTargetX (⟨0⟩ : TargetX)
      ⟨"\x7b\"errors\":[\x7b\"message\":\"server exploded\"\x7d]\x7d",
        some (Json.obj [("errors", Json.arr [Json.obj [("message", Json.str "server exploded")]])])⟩
      500
    = (ParseOutcome.errResp
        ⟨some ⟨500, "Response body \x7b\"errors\":[\x7b\"message\":\"server exploded\"\x7d]\x7d"⟩,
          some [some ⟨"server exploded", [], [], none⟩]⟩, ⟨0⟩) :=
  rfl

/--
Claim C5 (confirmed).  For every response with status outside [200,299] whose
body does not decode as a protocol envelope, the call returns an
`ErrorResponse` whose `NetworkError` carries that status code and the message
`"Response body "` followed by the raw body, with the protocol error list
absent; the decode failure is suppressed and no hard decode error reaches the
caller, and the target is untouched.
-/
theorem c5_ko_status_undecodable_body_network_error_only (α : Type)
    (dec : Json → Option α) (t0 : α) (body : Body) (code : Int)
    (hcode : isKOCode code = true)
    (henv : decodeEnvelope body = none) :
    parseResponse dec t0 body code
    = (ParseOutcome.errResp ⟨some ⟨code, "Response body " ++ body.raw⟩, none⟩, t0) := by
  have hu : unmarshal dec t0 body
      = (UnmarshalOutcome.decodeFailure DecodeStage.envelope body.raw, t0) := by
    unfold decodeEnvelope at henv
    cases hp : body.parsed with
    | none => simp [unmarshal, hp]
    | some v =>
      rw [hp] at henv
      simp at henv
      simp [unmarshal, hp, henv]
  simp [parseResponse, hu, hcode, networkErrorFor, ErrorResponse.HasErrors]

/--
Witness for C5: status 502 with the non-JSON body `Bad Gateway`.
-/
theorem c5_witness :
    parseResponse decodeTargetX (⟨0⟩ : TargetX) ⟨"Bad Gateway", none⟩ 502
    = (ParseOutcome.errResp ⟨some ⟨502, "Response body Bad Gateway"⟩, none⟩, ⟨0⟩) :=
  c5_ko_status_undecodable_body_network_error_only TargetX decodeTargetX ⟨0⟩
    ⟨"Bad Gateway", none⟩ 502 (by decide) rfl

/--
Claim C6 (code-bug evidence).  The claim states that a 2xx response whose
envelope has empty `errors` and whose `data` does not match the target shape
yields a hard decode error.  For the empty-errors-list body, the code never
reaches the `data` decoding: the present `"errors":[]` raw field is non-empty
as bytes, so `parseResponse` returns an `ErrorResponse` with an empty
`GqlErrors` list instead of the hard decode error.  The second conjunct shows
the `data` payload indeed does not match the target shape.
-/
theorem c6_empty_errors_yields_error_response :
    parseResponse decodeTargetX (⟨0⟩ : TargetX)
      ⟨"\x7b\"data\":5,\"errors\":[]\x7d",
        some (Json.obj [("data", Json.num 5), ("errors", Json.arr [])])⟩
      200
    = (ParseOutcome.errResp ⟨none, some []⟩, ⟨0⟩)
    ∧ decodeTargetX (Json.num 5) = none :=
  ⟨rfl, rfl⟩

/--
Claim C7 (confirmed).  For every response whose envelope contains a present,
non-empty `errors` field that decodes as a protocol error list, the `data`
field is never unmarshaled into the caller-supplied target: the call returns
an `ErrorResponse` carrying the decoded list (plus the status-derived
`NetworkError` component) and the target is returned exactly as it was
supplied.
-/
theorem c7_gql_errors_leave_target_unchanged (α : Type)
    (dec : Json → Option α) (t0 : α) (raw : String) (v : Json)
    (env : RespEnvelope) (errs : List (Option GqlError)) (code : Int)
    (henv : decodeRespStruct v = some env)
    (herr : errorsPresent env.errors = true)
    (hdec : decodeGqlErrorList v = some errs) :
    parseResponse dec t0 ⟨raw, some v⟩ code
    = (ParseOutcome.errResp ⟨networkErrorFor code raw, some errs⟩, t0) := by
  simp [parseResponse, unmarshal, henv, herr, hdec, ErrorResponse.HasErrors]

/--
Witness for C7: status 200 with body
`\x7b"data":null,"errors":[\x7b"message":"bad field"\x7d]\x7d` returns an
`ErrorResponse` with no network error and the single entry `bad field`, and
the target keeps its initial value.
-/
theorem c7_witness :
    parseResponse decodeTargetX (⟨0⟩ : TargetX)
      ⟨"\x7b\"data\":null,\"errors\":[\x7b\"message\":\"bad field\"\x7d]\x7d",
        some (Json.obj [("data", Json.null),
          ("errors", Json.arr [Json.obj [("message", Json.str "bad field")]])])⟩
      200
    = (ParseOutcome.errResp ⟨none, some [some ⟨"bad field", [], [], none⟩]⟩, ⟨0⟩) :=
  c7_gql_errors_leave_target_unchanged TargetX decodeTargetX ⟨0⟩
    "\x7b\"data\":null,\"errors\":[\x7b\"message\":\"bad field\"\x7d]\x7d"
    (Json.obj [("data", Json.null),
      ("errors", Json.arr [Json.obj [("message", Json.str "bad field")]])])
    ⟨some Json.null, some (Json.arr [Json.obj [("message", Json.str "bad field")]])⟩
    [some ⟨"bad field", [], [], none⟩] 200 rfl rfl rfl

/--
Claim C8 (confirmed).  `newRequest` applies all construction-time mutators to
the built transport request before any per-call mutators, each set in its
registration order: the result equals the single in-order left fold of the
concatenated mutator list over the base request.
-/
theorem c8_mutators_construction_then_per_call_in_order
    (baseURL query : String) (vars : List (String × GoValue))
    (clientOptions httpRequestOptions : List HTTPRequestOption) :
    newRequest baseURL clientOptions query vars httpRequestOptions
    = (clientOptions ++ httpRequestOptions).foldl (fun r o => o r)
        (baseTransportRequest baseURL query vars) := by
  simp [newRequest, List.foldl_append]

/--
Claim C9 (confirmed).  The variable sanitizer is idempotent: sanitizing twice
equals sanitizing once, for every input mapping.
-/
theorem c9_removeNils_idempotent (m : List (String × GoValue)) :
    removeNils (removeNils m) = removeNils m := by
  induction m using removeNils.induct <;> simp [removeNils, *]

/--
Claim C10 (confirmed).  The sanitizer always yields a well-defined mapping
(Go's nil map and the empty map, which behave identically here, are both
modelled by the empty association list, and the code always returns the
freshly initialised `withoutNils` map): an empty input yields an empty
output; a key holding a typed-nil nested mapping is retained with the empty
mapping as its value; a key holding a plain null is dropped.
-/
theorem c10_nil_and_empty_map_handling :
    removeNils [] = []
    ∧ (∀ (m : List (String × GoValue)) (k : String),
        (k, GoValue.nilMap) ∈ m → (k, GoValue.obj []) ∈ removeNils m)
    ∧ removeNils [("k", GoValue.null)] = [] := by
  refine ⟨by simp [removeNils], ?_, by simp [removeNils]⟩
  intro m k h
  have hmem := mem_removeNils_of_mem m k GoValue.nilMap h rfl
  simpa [sanitizeValue] using hmem

/--
Witness for C10: a singleton mapping holding a typed-nil nested map keeps its
key, now bound to the empty mapping.
-/
theorem c10_witness :
    ("a", GoValue.obj []) ∈ removeNils [("a", GoValue.nilMap)] :=
  c10_nil_and_empty_map_handling.2.1 [("a", GoValue.nilMap)] "a" (by simp)

end GqlClient
